import Mathlib

/-!
Verification development for the AgentInvest report-generation pipeline
(`agent.py` of quaesito/agentinvest-poc).

The Python pipeline is shallowly embedded: pure string/list manipulations
become Lean functions over `String` / `List Char`; the mutable instance
state threaded through `_format_context` (the `source_map` registry, the
`seen_titles` set, the running index and context text) becomes an explicit
`FmtState` record; external effects (LLM calls, filesystem, renderer) are
passed in as explicit arguments or outcome flags.

Modelling conventions:
- Python dicts with known string fields become structures; a missing or
  `None` field is represented by the empty string, matching the code's
  truthiness tests (`item.get('url')` is falsy exactly for missing/empty).
- `str.strip()`, `str.lower()` and the regexes are modelled on ASCII
  (`isPySpace`, `Char.isDigit`, `Char.toLower`), which covers the
  character set the pipeline actually manipulates.
- A Python `dict` registry keyed by consecutive integers is modelled as an
  association list built in insertion order.
-/

namespace AgentInvest

/-- Python whitespace as used by `str.strip()` and the regex class `\s`,
restricted to ASCII: space, tab, newline, vertical tab, form feed,
carriage return. -/
def isPySpace (c : Char) : Bool :=
  c == ' ' || c == '\t' || c == '\n' || c == Char.ofNat 11 || c == Char.ofNat 12 || c == '\r'

/-- Python `str.strip()` on a character list: drop leading and trailing
whitespace. -/
def pyStrip (s : List Char) : List Char :=
  ((s.dropWhile isPySpace).reverse.dropWhile isPySpace).reverse

/-- Python `str.strip()` at `String` level. -/
def pyStripStr (s : String) : String :=
  String.mk (pyStrip s.data)

/-- Python `str.lower()` (ASCII model). -/
def pyLowerStr (s : String) : String :=
  String.mk (s.data.map Char.toLower)

/-- A Source Registry value: what `_format_context` stores in
`self.source_map[idx]`, i.e. the dict `{"url": ..., "title": ...}`. -/
structure SourceInfo where
  url : String
  title : String
deriving Repr, DecidableEq

/-- The Source Registry `self.source_map`, a dict keyed by the citation
index, modelled as an association list in insertion order. -/
abbrev SourceMap := List (Nat × SourceInfo)

/-- Python `sorted(set(xs))` for a list of integers: the duplicate-free
ascending enumeration of the elements of `xs`. -/
def uniqueSorted (xs : List Nat) : List Nat :=
  List.insertionSort (· ≤ ·) xs.dedup

/-- The two fixed header parts that `_generate_references_section`
(agent.py 298-300) appends to `references_md` before the per-number
entries. -/
def referencesHeader : List String :=
  ["\n\n---\n", "\n<a id=\"references\"></a>\n\n## References\n\n"]

/-- The markdown entry `_generate_references_section` (agent.py 303-317)
appends for one cited number: a placeholder when the number is absent from
the registry, otherwise the bold number, the optional parenthesised title
and a `[link](url)` to the stripped url. -/
def referencesEntry (sourceMap : SourceMap) (num : Nat) : String :=
  match sourceMap.lookup num with
  | none => "**[" ++ toString num ++ "]** Source information unavailable\n\n"
  | some si =>
      let url := pyStripStr si.url
      let title := pyStripStr si.title
      let titlePart := if title = "" then "" else " (" ++ title ++ ")"
      "**[" ++ toString num ++ "]** " ++ titlePart ++ " [link](" ++ url ++ ")\n\n"

/-- `_generate_references_section` (agent.py 281-321), the active
references renderer: empty input yields the empty string; otherwise the
header parts followed by one entry per element of
`sorted(set(cited_numbers))`, joined with `"\n"`. -/
def generateReferencesSection (sourceMap : SourceMap) (citedNumbers : List Nat) : String :=
  if citedNumbers = [] then ""
  else
    String.intercalate "\n"
      (referencesHeader ++ (uniqueSorted citedNumbers).map (referencesEntry sourceMap))

/-- Numeric value of a digit string, as Python `int` applied to the
matched group of `\[(\d+)\]`. -/
def natOfDigits (ds : List Char) : Nat :=
  ds.foldl (fun n c => 10 * n + (c.toNat - 48)) 0

/-- Left-to-right scan for non-overlapping matches of the regex
`\[(\d+)\]` (agent.py 263-265): at a literal `[` followed by a nonempty
digit run followed immediately by `]`, record the run's value and resume
after the `]`; otherwise advance one character. Because a digit run can
contain no `[`, advancing one character at a time over a failed candidate
is equivalent to `re.findall`'s resumption rule. The first argument is
fuel bounding the recursion depth, always instantiated with the text
length (one unit is spent per character of consumed prefix, so text-length
fuel never runs out). -/
def findCitedFuel : Nat → List Char → List Nat
  | 0, _ => []
  | _ + 1, [] => []
  | fuel + 1, c :: rest =>
    if c = '[' ∧ rest.takeWhile Char.isDigit ≠ [] ∧
        (rest.dropWhile Char.isDigit).head? = some ']' then
      natOfDigits (rest.takeWhile Char.isDigit) ::
        findCitedFuel fuel (rest.dropWhile Char.isDigit).tail
    else
      findCitedFuel fuel rest

/-- The scanner at adequate fuel: the list of values of all `\[(\d+)\]`
matches of the text, in match order, with multiplicity. -/
def findCitedAux (l : List Char) : List Nat :=
  findCitedFuel l.length l

/-- `_extract_cited_numbers` (agent.py 260-265):
`sorted(list(set(map(int, re.findall(r'\[(\d+)\]', report_content)))))`. -/
def extractCitedNumbers (reportContent : String) : List Nat :=
  uniqueSorted (findCitedAux reportContent.data)

/-- Specification-side predicate: the integer `n` occurs in `text` as the
literal citation pattern `[n]`, i.e. some nonempty digit run with numeric
value `n`, enclosed in literal square brackets, appears as a contiguous
substring. -/
def CitedIn (n : Nat) (text : List Char) : Prop :=
  ∃ pre ds post, ds ≠ [] ∧ (∀ c ∈ ds, c.isDigit = true) ∧ natOfDigits ds = n ∧
    text = pre ++ '[' :: (ds ++ ']' :: post)

/-- A web-search result record `{title, url, content}`. A missing field is
the empty string (falsy, like the code's `item.get(...)` tests). -/
structure WebItem where
  title : String
  url : String
  content : String
deriving Repr, DecidableEq

/-- One element of the `web_results` list handed to `_format_context`:
either a result dict or a nested list of result dicts (one inner list per
original query), both shapes handled by the loop at agent.py 147-173. -/
inductive WebEntry where
  | flat (item : WebItem)
  | nested (items : List WebItem)
deriving Repr, DecidableEq

/-- A financial query record `{query, ticker}`. -/
structure FinQuery where
  query : String
  ticker : String
deriving Repr, DecidableEq

/-- A news record returned by `get_stock_news`, as consumed at
agent.py 189. -/
structure NewsItem where
  title : String
  content : String
deriving Repr, DecidableEq

/-- One element of the `financial_results` list: an `Exception` captured
by the retrieval layer, an `AgentChatResponse` (carried as its `str(...)`
text), a list of news records, or a plain string (agent.py 177-191). -/
inductive FinResult where
  | exn
  | chat (text : String)
  | news (items : List NewsItem)
  | str (s : String)
deriving Repr, DecidableEq

/-- The state mutated across `_format_context`: the running citation index
`source_idx`, the `seen_titles` set (as a list of lower-cased titles), the
`self.source_map` registry and the accumulated `formatted_context`. -/
structure FmtState where
  sourceIdx : Nat
  seenTitles : List String
  sourceMap : SourceMap
  ctx : String
deriving Repr, DecidableEq

/-- State at the top of `_format_context` (agent.py 138-143):
`source_idx = 1`, fresh `seen_titles`, cleared `source_map`, empty text. -/
def initFmtState : FmtState :=
  { sourceIdx := 1, seenTitles := [], sourceMap := [], ctx := "" }

/-- Truthiness test `item.get('url') and item.get('content')`
(agent.py 151/163). -/
def qualifiesWeb (item : WebItem) : Bool :=
  item.url != "" && item.content != ""

/-- The lower-cased trimmed title used as the deduplication key
(agent.py 152-154). -/
def titleKey (item : WebItem) : String :=
  pyLowerStr (pyStripStr item.title)

/-- Body of the per-item web branch of `_format_context`
(agent.py 151-161 and, identically, 163-173): register the item unless it
lacks a url or content, or its nonempty trimmed title was already seen
case-insensitively. -/
def processWebItem (st : FmtState) (item : WebItem) : FmtState :=
  if item.url ≠ "" ∧ item.content ≠ "" then
    let title := pyStripStr item.title
    if title ≠ "" ∧ pyLowerStr title ∈ st.seenTitles then st
    else
      { sourceIdx := st.sourceIdx + 1,
        seenTitles := if title ≠ "" then pyLowerStr title :: st.seenTitles else st.seenTitles,
        sourceMap := st.sourceMap ++ [(st.sourceIdx, ⟨item.url, title⟩)],
        ctx := st.ctx ++ "Source [" ++ toString st.sourceIdx ++ "]:\n" ++ item.content ++ "\n\n" }
  else st

/-- One iteration of the outer web loop (agent.py 147-173): a nested list
is flattened one level, a dict is processed directly. -/
def processWebEntry (st : FmtState) : WebEntry → FmtState
  | WebEntry.nested items => items.foldl processWebItem st
  | WebEntry.flat item => processWebItem st item

/-- The whole web-results pass of `_format_context`, starting from the
cleared state. -/
def webPass (webResults : List WebEntry) : FmtState :=
  webResults.foldl processWebEntry initFmtState

/-- One level of web-result flattening, for specification statements. -/
def webEntryItems : WebEntry → List WebItem
  | WebEntry.flat item => [item]
  | WebEntry.nested items => items

/-- All web items in processing order. -/
def flattenWeb (webResults : List WebEntry) : List WebItem :=
  webResults.flatMap webEntryItems

/-- Rendering of one news record (agent.py 189). -/
def newsLine (n : NewsItem) : String :=
  "Title: " ++ n.title ++ "\nContent: " ++ n.content

/-- Content derivation for a successful financial result
(agent.py 185-191): chat response text, joined news lines, or the plain
string; anything else leaves the default empty content. -/
def finContent : FinResult → String
  | FinResult.exn => ""
  | FinResult.chat text => text
  | FinResult.news items => String.intercalate "\n" (items.map newsLine)
  | FinResult.str s => s

/-- Synthetic url of a registered financial source (agent.py 183). -/
def yahooUrl (ticker : String) : String :=
  "https://finance.yahoo.com/quote/" ++ ticker

/-- Title of a registered financial source (agent.py 194). -/
def finTitle (q : FinQuery) : String :=
  "Financial data for " ++ q.ticker ++ " (" ++ q.query ++ ")"

/-- Registration step for one non-error financial result
(agent.py 181-198): with nonempty derived content, register the synthetic
source and advance the index; with empty content, leave the state
untouched. -/
def processFin (st : FmtState) (q : FinQuery) (res : FinResult) : FmtState :=
  let content := finContent res
  if content ≠ "" then
    { sourceIdx := st.sourceIdx + 1,
      seenTitles := st.seenTitles,
      sourceMap := st.sourceMap ++ [(st.sourceIdx, ⟨yahooUrl q.ticker, finTitle q⟩)],
      ctx := st.ctx ++ "Source [" ++ toString st.sourceIdx ++ "]:\n" ++ content ++ "\n\n" }
  else st

/-- The financial loop of `_format_context` (agent.py 176-198):
`for i, res in enumerate(financial_results)`. An `Exception` entry is
logged and skipped before `financial_queries[i]` is read; any other entry
reads `financial_queries[i]` (an out-of-range index raises, modelled as
`none`) and is registered when its content is nonempty. -/
def processFinList (queries : List FinQuery) : FmtState → Nat → List FinResult → Option FmtState
  | st, _, [] => some st
  | st, i, res :: rs =>
    if res = FinResult.exn then processFinList queries st (i + 1) rs
    else
      match queries[i]? with
      | none => none
      | some q => processFinList queries (processFin st q res) (i + 1) rs

/-- `_format_context` (agent.py 137-201) as a method of the instance: the
first argument is the instance's `self.source_map` before the call, which
line 143 (`self.source_map.clear()`) discards. Returns the stripped
context text plus the rebuilt registry, or `none` when the financial loop
indexes past the end of `financial_queries`. -/
def formatContextMethod (prevSourceMap : SourceMap) (webResults : List WebEntry)
    (financialResults : List FinResult) (financialQueries : List FinQuery) :
    Option (String × SourceMap) :=
  let _cleared := prevSourceMap
  let st1 := webPass webResults
  match processFinList financialQueries st1 0 financialResults with
  | none => none
  | some st2 => some (pyStripStr st2.ctx, st2.sourceMap)

/-- Specification-side count of web registrations: the fold over items of
the decision at agent.py 151-161, recorded as a number instead of a
state. -/
def webCountSpec (seen : List String) : List WebItem → Nat
  | [] => 0
  | item :: l =>
    if item.url ≠ "" ∧ item.content ≠ "" then
      if pyStripStr item.title ≠ "" ∧ titleKey item ∈ seen then webCountSpec seen l
      else
        (if pyStripStr item.title ≠ "" then webCountSpec (titleKey item :: seen) l
         else webCountSpec seen l) + 1
    else webCountSpec seen l

/-- The ASCII apostrophe, built by code point to keep string literals
plain. -/
def singleQuote : String :=
  String.mk [Char.ofNat 39]

/-- Python `s.replace(old, new)` for one-character `old` and `new`. -/
def pyReplaceChar (old new : Char) (s : List Char) : List Char :=
  s.map (fun c => if c = old then new else c)

/-- Python `s.replace(old, '')` for a one-character `old`. -/
def pyDropChar (old : Char) (s : List Char) : List Char :=
  s.filter (fun c => c != old)

/-- Python `s.replace('&', 'and')`. -/
def pyExpandAmp (s : List Char) : List Char :=
  s.flatMap (fun c => if c = '&' then ['a', 'n', 'd'] else [c])

/-- Python `re.sub(r'^\d+\.?\s*', '', s)`: when the string starts with at
least one decimal digit, remove the maximal leading digit run, one
following period if present, and any following whitespace run; otherwise
leave the string unchanged. -/
def stripLeadingNumber (s : List Char) : List Char :=
  if s.takeWhile Char.isDigit = [] then s
  else
    let s1 := s.dropWhile Char.isDigit
    let s2 := match s1 with
      | c :: rest => if c = '.' then rest else s1
      | [] => []
    s2.dropWhile isPySpace

/-- The anchor computation of `run` (agent.py 568-571) and `run_v3`
(agent.py 828-831): strip and lower-case the title, remove periods,
hyphenate spaces, drop parentheses, expand `&`, and only then strip the
leading-number regex. -/
def sectionAnchor (title : String) : String :=
  String.mk (stripLeadingNumber (pyExpandAmp (pyDropChar ')' (pyDropChar '('
    (pyReplaceChar ' ' '-' (pyDropChar '.' ((pyStrip title.data).map Char.toLower)))))))

/-- Modelled from the spec's wording of anchor derivation (§4.4): lower-case
the trimmed title, strip the leading numeric-prefix pattern first, then
replace spaces with hyphens, drop parentheses and replace `&` with `and`.
Kept solely to compare against `sectionAnchor`, the order the code uses. -/
def specAnchor (title : String) : String :=
  String.mk (pyExpandAmp (pyDropChar ')' (pyDropChar '('
    (pyReplaceChar ' ' '-' (stripLeadingNumber ((pyStrip title.data).map Char.toLower))))))

/-- Single-pass per-character description of the transformations the code
applies before its final leading-number strip, on an already lower-cased
character. -/
def anchorCharStep (c : Char) : List Char :=
  if c = '.' ∨ c = '(' ∨ c = ')' then []
  else if c = ' ' then ['-']
  else if c = '&' then ['a', 'n', 'd']
  else [c]

/-- Fixed TOC header (agent.py 395). -/
def tocHeader : String :=
  "<a id=\"table-of-contents\"></a>\n\n## Table of Contents\n\n"

/-- The page-break marker appended after the TOC (agent.py 406). -/
def pageBreakDiv : String :=
  "<div style=" ++ singleQuote ++ "page-break-after: always;" ++ singleQuote ++ "></div>\n\n"

/-- `_generate_table_of_contents` (agent.py 389-409): header, one stripped
title per line, a literal `- References` entry, a page break and a
separator. -/
def generateTableOfContents (reportStructure : List String) : String :=
  (reportStructure.foldl (fun acc s => acc ++ pyStripStr s ++ "\n") tocHeader)
    ++ "- References\n\n" ++ pageBreakDiv ++ "---\n\n"

/-- One body-section block (agent.py 574): HTML anchor, `##` heading with
the original title, then the generated content. -/
def sectionBlock (title content : String) : String :=
  "<a id=\"" ++ sectionAnchor title ++ "\"></a>\n\n## " ++ title ++ "\n\n" ++ content

/-- The `raw_report` assembly of `run` (agent.py 565-576): section blocks
in outline order joined by blank lines. Outline titles are paired
positionally with the generated contents. -/
def buildRawReport (reportStructure generatedContents : List String) : String :=
  String.intercalate "\n\n"
    ((reportStructure.zip generatedContents).map (fun p => sectionBlock p.1 p.2))

/-- The fixed final concatenation (agent.py 603 and 859): opening,
executive summary, table of contents, body, references, separated by blank
lines. -/
def assembleFinalReport (openingSection executiveSummary tableOfContents
    rawReport referencesSection : String) : String :=
  openingSection ++ "\n\n" ++ executiveSummary ++ "\n\n" ++ tableOfContents ++ "\n\n"
    ++ rawReport ++ "\n\n" ++ referencesSection

/-- The assembly tail shared by `run` (agent.py 565-603) and `run_v3`
(agent.py 825-859): build the raw report and TOC from the outline, extract
the cited numbers from the raw report, render the references against the
registry, and concatenate in the fixed order. -/
def runAssembly (reportStructure generatedContents : List String)
    (openingSection executiveSummary : String) (sourceMap : SourceMap) : String :=
  let rawReport := buildRawReport reportStructure generatedContents
  let tableOfContents := generateTableOfContents reportStructure
  let citedNumbers := extractCitedNumbers rawReport
  let referencesSection := generateReferencesSection sourceMap citedNumbers
  assembleFinalReport openingSection executiveSummary tableOfContents rawReport referencesSection

/-- `generate_report_structure` (agent.py 104-110) downstream of the LLM
boundary: the method returns `self._parse_llm_python_output(response.text)`
unchanged, so taking the parsed response as input, the outline computation
is the identity — no post-generation filter inspects the titles. -/
def generateReportStructure (parsedResponse : Option (List String)) : Option (List String) :=
  parsedResponse

/-- Outcome of one external filesystem operation. -/
inductive OpOutcome where
  | ok
  | fail
deriving Repr, DecidableEq

/-- The progress events the export tail of `run` can emit
(agent.py 611-658). -/
inductive ExportEvent where
  | removedOldMd
  | warnRemoveMd
  | mdSaved
  | mdSaveFailed
  | removedOldPdf
  | warnRemovePdf
  | pdfSaved
  | pdfInvalid
  | pdfRenderFailed
deriving Repr, DecidableEq

/-- Result of the export tail: the emitted events in order, whether the
PDF renderer was invoked, whether the markdown file is on disk at the end,
and the value returned to the caller. -/
structure ExportResult where
  events : List ExportEvent
  renderAttempted : Bool
  mdOnDisk : Bool
  returned : String
deriving Repr, DecidableEq

/-- Document-export tail of `run` (agent.py 611-660), with each external
effect's outcome passed explicitly: remove a pre-existing markdown file
(warn on failure, continue); write the markdown (on failure emit the
failure event and return the in-memory report without attempting the
renderer); remove a pre-existing PDF (warn on failure, continue); invoke
the renderer and validate the artifact, emitting a success or failure
event; finally return the in-memory report. No branch deletes the written
markdown. -/
def exportReport (finalReport : String) (mdExists : Bool) (mdRemove : OpOutcome)
    (mdWrite : OpOutcome) (pdfExists : Bool) (pdfRemove : OpOutcome)
    (renderOk : Bool) (artifactNonempty : Bool) : ExportResult :=
  let ev0 : List ExportEvent :=
    if mdExists then
      match mdRemove with
      | OpOutcome.ok => [ExportEvent.removedOldMd]
      | OpOutcome.fail => [ExportEvent.warnRemoveMd]
    else []
  match mdWrite with
  | OpOutcome.fail =>
      { events := ev0 ++ [ExportEvent.mdSaveFailed], renderAttempted := false,
        mdOnDisk := false, returned := finalReport }
  | OpOutcome.ok =>
      let ev1 := ev0 ++ [ExportEvent.mdSaved]
      let ev2 := ev1 ++
        (if pdfExists then
          match pdfRemove with
          | OpOutcome.ok => [ExportEvent.removedOldPdf]
          | OpOutcome.fail => [ExportEvent.warnRemovePdf]
         else [])
      let ev3 := ev2 ++
        (if renderOk then
          (if artifactNonempty then [ExportEvent.pdfSaved] else [ExportEvent.pdfInvalid])
         else [ExportEvent.pdfRenderFailed])
      { events := ev3, renderAttempted := true, mdOnDisk := true, returned := finalReport }

/-- A cache record as stored by `set_cached_data` (cache_manager.py) and
consumed by `run_v3` (agent.py 741-751). -/
structure CacheEntry where
  companyName : String
  reportStructure : List String
  context : String
  webResults : List WebEntry
  financialResults : List FinResult
  webQueries : List String
  financialQueries : List FinQuery
deriving Repr, DecidableEq

/-- The context-acquisition step of `run_v3` (agent.py 739-794): on a cache
hit the cached context string is used directly and `_format_context` is
never invoked, leaving the instance's `source_map` exactly as it was
(empty for a fresh instance, agent.py 61); on a miss the formatter runs on
the fresh results and rebuilds the registry. -/
def runV3AcquireContext (sourceMap0 : SourceMap) (cached : Option CacheEntry)
    (freshWeb : List WebEntry) (freshFin : List FinResult)
    (freshQueries : List FinQuery) : Option (String × SourceMap) :=
  match cached with
  | some c => some (c.context, sourceMap0)
  | none => formatContextMethod sourceMap0 freshWeb freshFin freshQueries

/-! ## Shared helper lemmas -/

theorem uniqueSorted_sorted_lt (xs : List Nat) :
    List.Sorted (· < ·) (uniqueSorted xs) := by
  have hs : List.Sorted (· ≤ ·) (uniqueSorted xs) :=
    List.sorted_insertionSort _ xs.dedup
  have hn : (uniqueSorted xs).Nodup :=
    ((List.perm_insertionSort _ xs.dedup).nodup_iff).mpr (List.nodup_dedup xs)
  exact hs.lt_of_le hn

theorem mem_uniqueSorted {xs : List Nat} {n : Nat} :
    n ∈ uniqueSorted xs ↔ n ∈ xs :=
  (List.mem_insertionSort _).trans (List.mem_dedup)

/-! ## C7: determinism of context formatting -/

/-- C7: `_format_context` clears the registry on entry (agent.py 143), so
its result — context text and rebuilt registry alike — is a function of
the raw inputs only: two calls on the same web results, financial results
and financial queries agree regardless of the registry state left by any
earlier call. -/
theorem format_context_deterministic (m1 m2 : SourceMap) (web : List WebEntry)
    (fins : List FinResult) (queries : List FinQuery) :
    formatContextMethod m1 web fins queries = formatContextMethod m2 web fins queries :=
  rfl

/-! ## C8: no outline exclusion filter is applied -/

/-- C8 counterexample: `generate_report_structure` returns the parsed model
response unchanged, so a model response that parses to an outline
containing a section literally titled "Executive Summary" yields exactly
that outline — the claimed exclusion does not hold for every model
response. -/
theorem outline_exclusion_cex :
    generateReportStructure (some ["Executive Summary", "1. Overview"])
      = some ["Executive Summary", "1. Overview"] ∧
    "Executive Summary" ∈ ["Executive Summary", "1. Overview"] :=
  ⟨rfl, List.mem_cons_self _ _⟩

/-- C8 (amended): the outline returned by `generate_report_structure` is
the parsed model response verbatim — no post-generation filter or
validation removes an "Executive Summary" or "Investment Thesis" title;
their exclusion is requested only in the prompt text. -/
theorem outline_passthrough (parsedResponse : Option (List String)) :
    generateReportStructure parsedResponse = parsedResponse :=
  rfl

/-! ## C4: financial results and the citation index -/

/-- C4: in the financial loop of `_format_context`, an `Exception` entry
passes the state through untouched (no registry entry, no index advance);
a non-error entry with empty derived content also leaves the state
untouched; a non-error entry with nonempty content is registered at the
current index with the synthetic Yahoo Finance url and the
`Financial data for <ticker> (<query>)` title, advancing the index; and
the scenario from the spec holds. -/
theorem financial_sources_correct :
    (∀ (queries : List FinQuery) (st : FmtState) (i : Nat) (rs : List FinResult),
      processFinList queries st i (FinResult.exn :: rs) = processFinList queries st (i + 1) rs) ∧
    (∀ (st : FmtState) (q : FinQuery) (res : FinResult),
      finContent res = "" → processFin st q res = st) ∧
    (∀ (st : FmtState) (q : FinQuery) (res : FinResult),
      finContent res ≠ "" →
      processFin st q res =
        { sourceIdx := st.sourceIdx + 1, seenTitles := st.seenTitles,
          sourceMap := st.sourceMap ++ [(st.sourceIdx, ⟨yahooUrl q.ticker, finTitle q⟩)],
          ctx := st.ctx ++ "Source [" ++ toString st.sourceIdx ++ "]:\n"
                   ++ finContent res ++ "\n\n" }) ∧
    processFinList [⟨"q1", "T"⟩] initFmtState 0 [FinResult.str "data"] =
      some { sourceIdx := 2, seenTitles := [],
             sourceMap := [(1, ⟨"https://finance.yahoo.com/quote/T",
                               "Financial data for T (q1)"⟩)],
             ctx := "Source [1]:\ndata\n\n" } := by
  refine ⟨?_, ?_, ?_, ?_⟩
  · intro queries st i rs
    simp [processFinList]
  · intro st q res h
    simp [processFin, h]
  · intro st q res h
    simp [processFin, h]
  · decide

/-- Witness for the hypothesised parts of `financial_sources_correct`. -/
theorem financial_sources_correct_witness :
    processFin initFmtState ⟨"q", "TT"⟩ (FinResult.str "") = initFmtState ∧
    processFin initFmtState ⟨"q", "TT"⟩ (FinResult.chat "hello") =
      { sourceIdx := 2, seenTitles := [],
        sourceMap := [(1, ⟨yahooUrl "TT", finTitle ⟨"q", "TT"⟩⟩)],
        ctx := "Source [1]:\nhello\n\n" } := by
  constructor
  · exact financial_sources_correct.2.1 initFmtState ⟨"q", "TT"⟩ (FinResult.str "") rfl
  · rw [financial_sources_correct.2.2.1 initFmtState ⟨"q", "TT"⟩ (FinResult.chat "hello")
      (by decide)]
    decide

/-! ## C9: document-export error handling -/

/-- C9: in the export tail of `run` — a failed markdown write aborts
before the renderer is invoked and returns the in-memory report; a render
failure, or a missing/zero-byte artifact, is reported via a progress event
without raising and leaves the written markdown on disk; a failed removal
of a pre-existing markdown file is logged as a warning and does not abort
the export. -/
theorem export_error_handling (finalReport : String) :
    (∀ mdExists mdRemove pdfExists pdfRemove renderOk artifactNonempty,
      (exportReport finalReport mdExists mdRemove OpOutcome.fail pdfExists pdfRemove
          renderOk artifactNonempty).renderAttempted = false ∧
      (exportReport finalReport mdExists mdRemove OpOutcome.fail pdfExists pdfRemove
          renderOk artifactNonempty).returned = finalReport) ∧
    (∀ mdExists mdRemove pdfExists pdfRemove artifactNonempty,
      ExportEvent.pdfRenderFailed ∈ (exportReport finalReport mdExists mdRemove OpOutcome.ok
          pdfExists pdfRemove false artifactNonempty).events ∧
      (exportReport finalReport mdExists mdRemove OpOutcome.ok pdfExists pdfRemove
          false artifactNonempty).mdOnDisk = true ∧
      (exportReport finalReport mdExists mdRemove OpOutcome.ok pdfExists pdfRemove
          false artifactNonempty).returned = finalReport) ∧
    (∀ mdExists mdRemove pdfExists pdfRemove,
      ExportEvent.pdfInvalid ∈ (exportReport finalReport mdExists mdRemove OpOutcome.ok
          pdfExists pdfRemove true false).events ∧
      (exportReport finalReport mdExists mdRemove OpOutcome.ok pdfExists pdfRemove
          true false).mdOnDisk = true) ∧
    (∀ mdWrite pdfExists pdfRemove renderOk artifactNonempty,
      ExportEvent.warnRemoveMd ∈ (exportReport finalReport true OpOutcome.fail mdWrite
          pdfExists pdfRemove renderOk artifactNonempty).events ∧
      (mdWrite = OpOutcome.ok →
        (exportReport finalReport true OpOutcome.fail mdWrite pdfExists pdfRemove
            renderOk artifactNonempty).renderAttempted = true)) := by
  refine ⟨?_, ?_, ?_, ?_⟩
  · intro mdExists mdRemove pdfExists pdfRemove renderOk artifactNonempty
    exact ⟨rfl, rfl⟩
  · intro mdExists mdRemove pdfExists pdfRemove artifactNonempty
    refine ⟨?_, rfl, rfl⟩
    simp [exportReport]
  · intro mdExists mdRemove pdfExists pdfRemove
    refine ⟨?_, rfl⟩
    simp [exportReport]
  · intro mdWrite pdfExists pdfRemove renderOk artifactNonempty
    constructor
    · cases mdWrite <;> simp [exportReport]
    · intro h
      subst h
      rfl

/-- Witness for the hypothesised part of `export_error_handling`. -/
theorem export_error_handling_witness :
    ExportEvent.warnRemoveMd ∈ (exportReport "report" true OpOutcome.fail OpOutcome.ok
        false OpOutcome.ok true true).events ∧
    (exportReport "report" true OpOutcome.fail OpOutcome.ok false OpOutcome.ok
        true true).renderAttempted = true :=
  ⟨((export_error_handling "report").2.2.2 OpOutcome.ok false OpOutcome.ok true true).1,
   ((export_error_handling "report").2.2.2 OpOutcome.ok false OpOutcome.ok true true).2 rfl⟩

/-! ## C10: cache hit in run_v3 leaves the registry empty -/

/-- C10: on a `run_v3` cache hit the cached context is used directly and
`_format_context` is never invoked, so a fresh instance's empty
`source_map` stays empty; consequently every cited number is rendered in
the references section as the `Source information unavailable`
placeholder. -/
theorem run_v3_cache_hit_unavailable (c : CacheEntry) (web : List WebEntry)
    (fins : List FinResult) (queries : List FinQuery) (cited : List Nat) :
    runV3AcquireContext [] (some c) web fins queries = some (c.context, []) ∧
    (∀ n, referencesEntry ([] : SourceMap) n
        = "**[" ++ toString n ++ "]** Source information unavailable\n\n") ∧
    (cited ≠ [] → generateReferencesSection ([] : SourceMap) cited =
      String.intercalate "\n" (referencesHeader ++ (uniqueSorted cited).map
        (fun n => "**[" ++ toString n ++ "]** Source information unavailable\n\n"))) := by
  refine ⟨rfl, fun n => rfl, fun h => ?_⟩
  rw [generateReferencesSection, if_neg h]
  have hmap : List.map (referencesEntry []) (uniqueSorted cited)
      = List.map (fun n => "**[" ++ toString n ++ "]** Source information unavailable\n\n")
        (uniqueSorted cited) :=
    List.map_congr_left fun n _ => rfl
  rw [hmap]

/-- Witness for the hypothesised part of `run_v3_cache_hit_unavailable`. -/
theorem run_v3_cache_hit_unavailable_witness :
    runV3AcquireContext [] (some ⟨"Acme", ["1. A"], "ctx", [], [], [], []⟩) [] [] []
      = some ("ctx", []) ∧
    generateReferencesSection ([] : SourceMap) [2, 1] =
      String.intercalate "\n" (referencesHeader ++ (uniqueSorted [2, 1]).map
        (fun n => "**[" ++ toString n ++ "]** Source information unavailable\n\n")) :=
  ⟨(run_v3_cache_hit_unavailable ⟨"Acme", ["1. A"], "ctx", [], [], [], []⟩ [] [] [] [2, 1]).1,
   (run_v3_cache_hit_unavailable ⟨"Acme", ["1. A"], "ctx", [], [], [], []⟩ [] [] [] [2, 1]).2.2
     (by decide)⟩

/-! ## C1: the references renderer -/

/-- C1: the active references renderer emits, after the two fixed header
parts, one entry per distinct cited number in strictly ascending order
(so each number exactly once, and every cited number is covered); a number
present in the registry renders with its optional parenthesised title and
its url, and an absent number renders the explicit
`Source information unavailable` placeholder rather than being dropped. -/
theorem references_section_correct (sourceMap : SourceMap) (cited : List Nat) :
    List.Sorted (· < ·) (uniqueSorted cited) ∧
    (∀ n, n ∈ uniqueSorted cited ↔ n ∈ cited) ∧
    (cited ≠ [] → generateReferencesSection sourceMap cited =
      String.intercalate "\n"
        (referencesHeader ++ (uniqueSorted cited).map (referencesEntry sourceMap))) ∧
    (∀ n, sourceMap.lookup n = none → referencesEntry sourceMap n =
      "**[" ++ toString n ++ "]** Source information unavailable\n\n") ∧
    (∀ n si, sourceMap.lookup n = some si → referencesEntry sourceMap n =
      "**[" ++ toString n ++ "]** "
        ++ (if pyStripStr si.title = "" then "" else " (" ++ pyStripStr si.title ++ ")")
        ++ " [link](" ++ pyStripStr si.url ++ ")\n\n") := by
  refine ⟨uniqueSorted_sorted_lt cited, fun n => mem_uniqueSorted, ?_, ?_, ?_⟩
  · intro h
    rw [generateReferencesSection, if_neg h]
  · intro n h
    rw [referencesEntry, h]
  · intro n si h
    rw [referencesEntry, h]

/-- Witness for the hypothesised parts of `references_section_correct`. -/
theorem references_section_correct_witness :
    generateReferencesSection [(1, ⟨"u1", "T"⟩)] [2, 1, 2] =
      String.intercalate "\n" (referencesHeader ++
        (uniqueSorted [2, 1, 2]).map (referencesEntry [(1, ⟨"u1", "T"⟩)])) ∧
    referencesEntry ([(1, ⟨"u1", "T"⟩)] : SourceMap) 2 =
      "**[" ++ toString 2 ++ "]** Source information unavailable\n\n" ∧
    referencesEntry ([(1, ⟨"u1", "T"⟩)] : SourceMap) 1 =
      "**[" ++ toString 1 ++ "]** "
        ++ (if pyStripStr "T" = "" then "" else " (" ++ pyStripStr "T" ++ ")")
        ++ " [link](" ++ pyStripStr "u1" ++ ")\n\n" :=
  ⟨(references_section_correct [(1, ⟨"u1", "T"⟩)] [2, 1, 2]).2.2.1 (by decide),
   (references_section_correct [(1, ⟨"u1", "T"⟩)] [2, 1, 2]).2.2.2.1 2 (by decide),
   (references_section_correct [(1, ⟨"u1", "T"⟩)] [2, 1, 2]).2.2.2.2 1 ⟨"u1", "T"⟩ (by decide)⟩

/-! ## C5: fixed assembly order -/

theorem string_foldl_append (m : List String) : ∀ (a : String),
    m.foldl (fun r s => r ++ s) a = a ++ m.foldl (fun r s => r ++ s) "" := by
  induction m with
  | nil => intro a; exact (String.append_empty a).symm
  | cons x t ih =>
    intro a
    have h1 : (x :: t).foldl (fun r s => r ++ s) a = t.foldl (fun r s => r ++ s) (a ++ x) := rfl
    have h2 : (x :: t).foldl (fun r s => r ++ s) "" = t.foldl (fun r s => r ++ s) ("" ++ x) := rfl
    rw [h1, h2, ih (a ++ x), ih ("" ++ x), String.empty_append, String.append_assoc]

theorem string_join_cons (x : String) (t : List String) :
    String.join (x :: t) = x ++ String.join t := by
  show t.foldl (fun r s => r ++ s) ("" ++ x) = x ++ String.join t
  rw [string_foldl_append t ("" ++ x), String.empty_append]
  rfl

theorem toc_foldl_join : ∀ (l : List String) (acc : String),
    l.foldl (fun a s => a ++ pyStripStr s ++ "\n") acc
      = acc ++ String.join (l.map (fun s => pyStripStr s ++ "\n")) := by
  intro l
  induction l with
  | nil =>
    intro acc
    exact (String.append_empty acc).symm
  | cons x t ih =>
    intro acc
    have h1 : (x :: t).foldl (fun a s => a ++ pyStripStr s ++ "\n") acc
        = t.foldl (fun a s => a ++ pyStripStr s ++ "\n") (acc ++ pyStripStr x ++ "\n") := rfl
    rw [h1, ih, List.map_cons, string_join_cons]
    simp only [String.append_assoc]

/-- C5: the assembled report is the fixed-order concatenation — opening
block, executive summary, table of contents, body sections in outline
order, references — and the table of contents consists of the header, one
line per outline title, and a final literal `- References` entry before
its page break. -/
theorem final_report_order (reportStructure generatedContents : List String)
    (openingSection executiveSummary : String) (sourceMap : SourceMap) :
    runAssembly reportStructure generatedContents openingSection executiveSummary sourceMap =
      openingSection ++ "\n\n" ++ executiveSummary ++ "\n\n"
        ++ generateTableOfContents reportStructure ++ "\n\n"
        ++ buildRawReport reportStructure generatedContents ++ "\n\n"
        ++ generateReferencesSection sourceMap
             (extractCitedNumbers (buildRawReport reportStructure generatedContents)) ∧
    generateTableOfContents reportStructure =
      tocHeader ++ String.join (reportStructure.map (fun s => pyStripStr s ++ "\n"))
        ++ "- References\n\n" ++ pageBreakDiv ++ "---\n\n" ∧
    buildRawReport reportStructure generatedContents =
      String.intercalate "\n\n"
        ((reportStructure.zip generatedContents).map (fun p => sectionBlock p.1 p.2)) := by
  refine ⟨rfl, ?_, rfl⟩
  rw [generateTableOfContents, toc_foldl_join]

/-! ## C6: anchor derivation order -/

/-- C6 counterexample: the code lower-cases, removes periods and
hyphenates spaces before applying the leading-number regex, so for the
title `1. Overview` the regex sees `1-overview`, strips only the digit
run, and leaves `-overview`; the spec's operation order would give
`overview`. -/
theorem anchor_claim_cex :
    sectionAnchor "1. Overview" = "-overview" ∧
    specAnchor "1. Overview" = "overview" ∧
    sectionAnchor "1. Overview" ≠ specAnchor "1. Overview" := by
  refine ⟨by decide, by decide, by decide⟩

theorem anchor_pipeline_eq (l : List Char) :
    pyExpandAmp (pyDropChar ')' (pyDropChar '(' (pyReplaceChar ' ' '-' (pyDropChar '.' l))))
      = l.flatMap anchorCharStep := by
  induction l with
  | nil => rfl
  | cons c t ih =>
    simp only [pyDropChar, pyReplaceChar, pyExpandAmp, List.filter_filter] at ih
    by_cases h1 : c = '.'
    · subst h1
      simp [pyDropChar, pyReplaceChar, pyExpandAmp, anchorCharStep, ih]
    · by_cases h2 : c = '('
      · subst h2
        simp [pyDropChar, pyReplaceChar, pyExpandAmp, anchorCharStep, ih]
      · by_cases h3 : c = ')'
        · subst h3
          simp [pyDropChar, pyReplaceChar, pyExpandAmp, anchorCharStep, ih]
        · by_cases h4 : c = ' '
          · subst h4
            simp [pyDropChar, pyReplaceChar, pyExpandAmp, anchorCharStep, ih]
          · by_cases h5 : c = '&'
            · subst h5
              simp [pyDropChar, pyReplaceChar, pyExpandAmp, anchorCharStep, ih]
            · simp [pyDropChar, pyReplaceChar, pyExpandAmp, anchorCharStep, h1, h2, h3, h4, h5, ih]

/-- C6 (amended): the anchor equals the result of lower-casing the trimmed
title, then applying per character — drop periods and parentheses, map
spaces to hyphens, expand `&` to `and` — and only then stripping a leading
digit run together with a following period and whitespace (vacuous at that
point, periods and spaces having been rewritten); thus `1. Overview`
yields `-overview`, not `overview`. The anchor is a pure function of the
title text, hence stable within a report. -/
theorem anchor_derivation_amended (title : String) :
    sectionAnchor title =
      String.mk (stripLeadingNumber
        (((pyStrip title.data).map Char.toLower).flatMap anchorCharStep)) ∧
    sectionAnchor "1. Overview" = "-overview" := by
  constructor
  · rw [sectionAnchor, anchor_pipeline_eq]
  · decide

/-! ## C3: web deduplication and registry size -/

theorem webPass_eq_flatten : ∀ (web : List WebEntry) (st : FmtState),
    web.foldl processWebEntry st = (flattenWeb web).foldl processWebItem st := by
  intro web
  induction web with
  | nil => intro st; rfl
  | cons e t ih =>
    intro st
    have h1 : flattenWeb (e :: t) = webEntryItems e ++ flattenWeb t := by
      rw [flattenWeb, List.flatMap_cons]
      rfl
    have h2 : processWebEntry st e = (webEntryItems e).foldl processWebItem st := by
      cases e <;> rfl
    rw [List.foldl_cons, h2, ih, h1, List.foldl_append]

theorem foldl_processWebItem_length : ∀ (l : List WebItem) (st : FmtState),
    ((l.foldl processWebItem st).sourceMap).length
      = st.sourceMap.length + webCountSpec st.seenTitles l := by
  intro l
  induction l with
  | nil =>
    intro st
    simp [webCountSpec]
  | cons item t ih =>
    intro st
    rw [List.foldl_cons]
    by_cases hq : item.url ≠ "" ∧ item.content ≠ ""
    · by_cases hskip : pyStripStr item.title ≠ "" ∧ pyLowerStr (pyStripStr item.title) ∈ st.seenTitles
      · have hpw : processWebItem st item = st := by
          simp only [processWebItem]
          rw [if_pos hq, if_pos hskip]
        rw [hpw, ih st]
        have hc : webCountSpec st.seenTitles (item :: t) = webCountSpec st.seenTitles t := by
          simp only [webCountSpec, titleKey]
          rw [if_pos hq, if_pos hskip]
        rw [hc]
      · have hpw : processWebItem st item =
            { sourceIdx := st.sourceIdx + 1,
              seenTitles := if pyStripStr item.title ≠ "" then
                  pyLowerStr (pyStripStr item.title) :: st.seenTitles
                else st.seenTitles,
              sourceMap := st.sourceMap ++ [(st.sourceIdx, ⟨item.url, pyStripStr item.title⟩)],
              ctx := st.ctx ++ "Source [" ++ toString st.sourceIdx ++ "]:\n"
                       ++ item.content ++ "\n\n" } := by
          simp only [processWebItem]
          rw [if_pos hq, if_neg hskip]
        have hc : webCountSpec st.seenTitles (item :: t)
            = webCountSpec (if pyStripStr item.title ≠ "" then
                pyLowerStr (pyStripStr item.title) :: st.seenTitles
              else st.seenTitles) t + 1 := by
          simp only [webCountSpec, titleKey]
          rw [if_pos hq, if_neg hskip]
          by_cases ht : pyStripStr item.title ≠ ""
          · rw [if_pos ht, if_pos ht]
          · rw [if_neg ht, if_neg ht]
        rw [hpw, ih _, hc]
        simp only [List.length_append, List.length_cons, List.length_nil]
        omega
    · have hpw : processWebItem st item = st := by
        simp only [processWebItem]
        rw [if_neg hq]
      have hc : webCountSpec st.seenTitles (item :: t) = webCountSpec st.seenTitles t := by
        simp only [webCountSpec]
        rw [if_neg hq]
      rw [hpw, ih st, hc]

theorem card_insert_eq_filter_ne (S : Finset String) (key : String) :
    (insert key S).card = (S.filter (fun k => k ≠ key)).card + 1 := by
  rw [Finset.filter_ne']
  by_cases hk : key ∈ S
  · rw [Finset.card_insert_of_mem hk, Finset.card_erase_of_mem hk]
    have hpos : 0 < S.card := Finset.card_pos.mpr ⟨key, hk⟩
    omega
  · rw [Finset.erase_eq_of_not_mem hk, Finset.card_insert_of_not_mem hk]

theorem webCountSpec_formula : ∀ (l : List WebItem) (seen : List String),
    webCountSpec seen l =
      ((((l.filter qualifiesWeb).filter (fun it => pyStripStr it.title != "")).map
          titleKey).toFinset.filter (fun k => k ∉ seen)).card
        + ((l.filter qualifiesWeb).filter (fun it => pyStripStr it.title == "")).length := by
  intro l
  induction l with
  | nil =>
    intro seen
    simp [webCountSpec]
  | cons item t ih =>
    intro seen
    by_cases hq : item.url ≠ "" ∧ item.content ≠ ""
    · have hqb : qualifiesWeb item = true := by
        simp only [qualifiesWeb, Bool.and_eq_true, bne_iff_ne]
        exact ⟨hq.1, hq.2⟩
      by_cases ht : pyStripStr item.title ≠ ""
      · have hfilters :
            (((item :: t).filter qualifiesWeb).filter
                (fun it => pyStripStr it.title != "")).map titleKey
              = titleKey item ::
                  (((t.filter qualifiesWeb).filter
                      (fun it => pyStripStr it.title != "")).map titleKey) := by
          simp [List.filter_cons, hqb, ht]
        have hempties : ((item :: t).filter qualifiesWeb).filter
              (fun it => pyStripStr it.title == "")
            = (t.filter qualifiesWeb).filter (fun it => pyStripStr it.title == "") := by
          simp [List.filter_cons, hqb, ht]
        by_cases hseen : titleKey item ∈ seen
        · have hc : webCountSpec seen (item :: t) = webCountSpec seen t := by
            simp only [webCountSpec, titleKey]
            rw [if_pos hq, if_pos ⟨ht, hseen⟩]
          rw [hc, ih seen, hfilters, hempties, List.toFinset_cons, Finset.filter_insert,
            if_neg (not_not_intro hseen)]
        · have hc : webCountSpec seen (item :: t)
              = webCountSpec (titleKey item :: seen) t + 1 := by
            simp only [webCountSpec, titleKey]
            rw [if_pos hq, if_neg (by
              intro hcontra
              exact hseen hcontra.2), if_pos ht]
          rw [hc, ih (titleKey item :: seen), hfilters, hempties, List.toFinset_cons,
            Finset.filter_insert, if_pos hseen]
          have hsplit :
              ((((t.filter qualifiesWeb).filter
                  (fun it => pyStripStr it.title != "")).map titleKey).toFinset.filter
                (fun k => k ∉ titleKey item :: seen))
              = (((((t.filter qualifiesWeb).filter
                  (fun it => pyStripStr it.title != "")).map titleKey).toFinset.filter
                (fun k => k ∉ seen)).filter (fun k => k ≠ titleKey item)) := by
            rw [Finset.filter_filter]
            apply Finset.filter_congr
            intro x _
            simp only [List.mem_cons, not_or, eq_iff_iff]
            constructor
            · intro hx
              exact ⟨hx.2, hx.1⟩
            · intro hx
              exact ⟨hx.2, hx.1⟩
          rw [hsplit, card_insert_eq_filter_ne]
          omega
      · have hteq : pyStripStr item.title = "" := not_not.mp ht
        have hc : webCountSpec seen (item :: t) = webCountSpec seen t + 1 := by
          simp only [webCountSpec, titleKey]
          rw [if_pos hq, if_neg (by
            intro hcontra
            exact ht hcontra.1), if_neg ht]
        have hfilters2 : (((item :: t).filter qualifiesWeb).filter
              (fun it => pyStripStr it.title != ""))
            = (t.filter qualifiesWeb).filter (fun it => pyStripStr it.title != "") := by
          simp [List.filter_cons, hqb, hteq]
        have hempties2 : (((item :: t).filter qualifiesWeb).filter
              (fun it => pyStripStr it.title == ""))
            = item :: ((t.filter qualifiesWeb).filter
                (fun it => pyStripStr it.title == "")) := by
          simp [List.filter_cons, hqb, hteq]
        rw [hc, ih seen, hfilters2, hempties2, List.length_cons]
        omega
    · have hqb : qualifiesWeb item = false := by
        rw [qualifiesWeb]
        by_cases h1 : item.url = ""
        · simp [h1]
        · have h2 : item.content = "" := by
            by_contra h2
            exact hq ⟨h1, h2⟩
          simp [h2]
      have hfilters3 : (item :: t).filter qualifiesWeb = t.filter qualifiesWeb := by
        simp [List.filter_cons, hqb]
      have hc : webCountSpec seen (item :: t) = webCountSpec seen t := by
        simp only [webCountSpec]
        rw [if_neg hq]
      rw [hc, ih seen, hfilters3]

/-- C3: a web item is registered only if it has a nonempty url and
nonempty content; an item whose trimmed, lower-cased title was already
registered in the same pass is skipped, while empty-titled items are never
deduplicated; consequently the number of registry entries produced by the
web pass equals the number of distinct nonempty title keys among
qualifying items plus the number of qualifying items with an empty trimmed
title; and the duplicate-title scenario from the spec holds. -/
theorem web_dedup_correct (web : List WebEntry) :
    (∀ (st : FmtState) (item : WebItem),
      ¬(item.url ≠ "" ∧ item.content ≠ "") → processWebItem st item = st) ∧
    (∀ (st : FmtState) (item : WebItem),
      item.url ≠ "" → item.content ≠ "" → pyStripStr item.title ≠ "" →
      pyLowerStr (pyStripStr item.title) ∈ st.seenTitles → processWebItem st item = st) ∧
    (webPass web).sourceMap.length =
      ((((flattenWeb web).filter qualifiesWeb).filter
          (fun it => pyStripStr it.title != "")).map titleKey).toFinset.card
        + (((flattenWeb web).filter qualifiesWeb).filter
            (fun it => pyStripStr it.title == "")).length ∧
    (webPass [WebEntry.flat ⟨"A", "u1", "c1"⟩, WebEntry.flat ⟨"a", "u2", "c2"⟩]).sourceMap
      = [(1, ⟨"u1", "A"⟩)] := by
  refine ⟨?_, ?_, ?_, by decide⟩
  · intro st item h
    simp only [processWebItem]
    rw [if_neg h]
  · intro st item h1 h2 h3 h4
    simp only [processWebItem]
    rw [if_pos ⟨h1, h2⟩, if_pos ⟨h3, h4⟩]
  · rw [webPass, webPass_eq_flatten, foldl_processWebItem_length, webCountSpec_formula]
    have hall : ((((flattenWeb web).filter qualifiesWeb).filter
          (fun it => pyStripStr it.title != "")).map titleKey).toFinset.filter
          (fun k => k ∉ (initFmtState.seenTitles)) =
        ((((flattenWeb web).filter qualifiesWeb).filter
          (fun it => pyStripStr it.title != "")).map titleKey).toFinset := by
      apply Finset.filter_true_of_mem
      intro x _
      exact List.not_mem_nil x
    rw [hall]
    simp [initFmtState]

/-- Witness for the hypothesised parts of `web_dedup_correct`. -/
theorem web_dedup_correct_witness :
    processWebItem initFmtState ⟨"T", "", "c"⟩ = initFmtState ∧
    processWebItem (FmtState.mk 2 ["t"] [(1, ⟨"u", "T"⟩)] "x") ⟨" T ", "u2", "c2"⟩
      = FmtState.mk 2 ["t"] [(1, ⟨"u", "T"⟩)] "x" :=
  ⟨(web_dedup_correct []).1 initFmtState ⟨"T", "", "c"⟩ (by decide),
   (web_dedup_correct []).2.1 _ ⟨" T ", "u2", "c2"⟩ (by decide) (by decide) (by decide)
     (by decide)⟩

/-! ## C2: citation extraction -/

theorem not_citedIn_nil (n : Nat) : ¬ CitedIn n [] := by
  rintro ⟨pre, ds, post, hne, hdig, hval, heq⟩
  cases pre <;> simp at heq

theorem citedIn_append_left (pref : List Char) {n : Nat} {t : List Char} :
    CitedIn n t → CitedIn n (pref ++ t) := by
  rintro ⟨pre, ds, post, hne, hdig, hval, heq⟩
  exact ⟨pref ++ pre, ds, post, hne, hdig, hval, by rw [heq, List.append_assoc]⟩

theorem digits_take_drop : ∀ (ds : List Char) (x : Char) (post : List Char),
    (∀ c ∈ ds, c.isDigit = true) → x.isDigit = false →
    ((ds ++ x :: post).takeWhile Char.isDigit = ds ∧
      (ds ++ x :: post).dropWhile Char.isDigit = x :: post) := by
  intro ds
  induction ds with
  | nil =>
    intro x post _ hx
    constructor
    · simp [List.takeWhile_cons, hx]
    · simp [List.dropWhile_cons, hx]
  | cons d t ih =>
    intro x post hdig hx
    have hd : d.isDigit = true := hdig d (List.mem_cons_self d t)
    have iht := ih x post (fun c hc => hdig c (List.mem_cons_of_mem d hc)) hx
    constructor
    · rw [List.cons_append, List.takeWhile_cons, if_pos hd, iht.1]
    · rw [List.cons_append, List.dropWhile_cons, if_pos hd, iht.2]

theorem bracket_surgery : ∀ (ds0 : List Char), (∀ c ∈ ds0, c.isDigit = true) →
    ∀ (l1 m tail : List Char), l1 ++ '[' :: m = ds0 ++ ']' :: tail →
    ∃ l2, l1 = ds0 ++ ']' :: l2 ∧ tail = l2 ++ '[' :: m := by
  intro ds0
  induction ds0 with
  | nil =>
    intro _ l1 m tail heq
    cases l1 with
    | nil =>
      rw [List.nil_append, List.nil_append] at heq
      injection heq with h1 _
      exact absurd h1 (by decide)
    | cons a l1 =>
      rw [List.cons_append, List.nil_append] at heq
      injection heq with h1 h2
      refine ⟨l1, ?_, h2.symm⟩
      rw [List.nil_append, h1]
  | cons d t ih =>
    intro hdig l1 m tail heq
    cases l1 with
    | nil =>
      rw [List.nil_append, List.cons_append] at heq
      injection heq with h1 _
      have hd : d.isDigit = true := hdig d (List.mem_cons_self d t)
      rw [← h1] at hd
      exact absurd hd (by decide)
    | cons a l1 =>
      rw [List.cons_append, List.cons_append] at heq
      injection heq with h1 h2
      obtain ⟨l2, hA, hB⟩ := ih (fun c hc => hdig c (List.mem_cons_of_mem d hc)) l1 m tail h2
      refine ⟨l2, ?_, hB⟩
      rw [List.cons_append, h1, hA]

theorem findCitedFuel_iff : ∀ (fuel : Nat) (l : List Char), l.length ≤ fuel →
    ∀ n, (n ∈ findCitedFuel fuel l ↔ CitedIn n l) := by
  intro fuel
  induction fuel with
  | zero =>
    intro l hl n
    have hnil : l = [] := List.eq_nil_of_length_eq_zero (Nat.le_zero.mp hl)
    subst hnil
    constructor
    · intro h
      exact absurd h (List.not_mem_nil n)
    · intro h
      exact absurd h (not_citedIn_nil n)
  | succ fuel ihf =>
    intro l hl n
    cases l with
    | nil =>
      constructor
      · intro h
        exact absurd h (List.not_mem_nil n)
      · intro h
        exact absurd h (not_citedIn_nil n)
    | cons c rest =>
      have hrest : rest.length ≤ fuel := by
        rw [List.length_cons] at hl
        omega
      by_cases hc : c = '[' ∧ rest.takeWhile Char.isDigit ≠ [] ∧
          (rest.dropWhile Char.isDigit).head? = some ']'
      · obtain ⟨hcbr, htw, hdw⟩ := hc
        subst hcbr
        obtain ⟨tl, htl⟩ : ∃ tl, rest.dropWhile Char.isDigit = ']' :: tl := by
          cases hdd : rest.dropWhile Char.isDigit with
          | nil =>
            rw [hdd] at hdw
            simp at hdw
          | cons a t =>
            rw [hdd] at hdw
            simp only [List.head?_cons, Option.some.injEq] at hdw
            exact ⟨t, by rw [hdw]⟩
        have hsplit : rest = rest.takeWhile Char.isDigit ++ ']' :: tl := by
          have hts := List.takeWhile_append_dropWhile Char.isDigit rest
          rw [htl] at hts
          exact hts.symm
        have htl_len : tl.length ≤ fuel := by
          have h1 : (rest.dropWhile Char.isDigit).length ≤ rest.length :=
            (List.dropWhile_sublist Char.isDigit).length_le
          rw [htl, List.length_cons] at h1
          omega
        have hdigits : ∀ x ∈ rest.takeWhile Char.isDigit, x.isDigit = true :=
          fun x hx => List.mem_takeWhile_imp hx
        have heval : findCitedFuel (fuel + 1) ('[' :: rest)
            = natOfDigits (rest.takeWhile Char.isDigit) :: findCitedFuel fuel tl := by
          simp only [findCitedFuel]
          rw [if_pos ⟨trivial, htw, hdw⟩, htl, List.tail_cons]
        rw [heval]
        constructor
        · intro hmem
          rcases List.mem_cons.mp hmem with hveq | hmemtl
          · refine ⟨[], rest.takeWhile Char.isDigit, tl, htw, hdigits, hveq.symm, ?_⟩
            rw [List.nil_append, ← hsplit]
          · have h1 := (ihf tl htl_len n).mp hmemtl
            have h2 : CitedIn n (('[' :: (rest.takeWhile Char.isDigit ++ [']'])) ++ tl) :=
              citedIn_append_left _ h1
            have h3 : ('[' :: (rest.takeWhile Char.isDigit ++ [']'])) ++ tl = '[' :: rest := by
              rw [List.cons_append, List.append_assoc, List.singleton_append, ← hsplit]
            rwa [h3] at h2
        · rintro ⟨pre, ds, post, hne, hdig, hval, heq⟩
          cases pre with
          | nil =>
            rw [List.nil_append] at heq
            injection heq with _ h2
            have hdd := digits_take_drop ds ']' post hdig (by decide)
            apply List.mem_cons.mpr
            left
            rw [h2, hdd.1]
            exact hval.symm
          | cons a pre =>
            rw [List.cons_append] at heq
            injection heq with _ h2
            obtain ⟨l2, _, hB⟩ := bracket_surgery (rest.takeWhile Char.isDigit) hdigits pre
              (ds ++ ']' :: post) tl (h2.symm.trans hsplit)
            have hcit_tl : CitedIn n tl := ⟨l2, ds, post, hne, hdig, hval, hB⟩
            exact List.mem_cons.mpr (Or.inr ((ihf tl htl_len n).mpr hcit_tl))
      · have heval : findCitedFuel (fuel + 1) (c :: rest) = findCitedFuel fuel rest := by
          simp only [findCitedFuel]
          rw [if_neg hc]
        rw [heval]
        constructor
        · intro h
          exact citedIn_append_left [c] ((ihf rest hrest n).mp h)
        · rintro ⟨pre, ds, post, hne, hdig, hval, heq⟩
          apply (ihf rest hrest n).mpr
          cases pre with
          | nil =>
            rw [List.nil_append] at heq
            injection heq with h1 h2
            exfalso
            apply hc
            have hdd := digits_take_drop ds ']' post hdig (by decide)
            refine ⟨h1, ?_, ?_⟩
            · rw [h2, hdd.1]
              exact hne
            · rw [h2, hdd.2]
              rfl
          | cons a pre =>
            rw [List.cons_append] at heq
            injection heq with _ h2
            exact ⟨pre, ds, post, hne, hdig, hval, h2⟩

/-- C2: `_extract_cited_numbers` returns the strictly ascending,
duplicate-free enumeration of exactly those integers that occur in the
body text as the literal pattern `[n]` — repetition and first-use order do
not affect the result — and the spec's example evaluates to `[1, 2]`. -/
theorem extract_cited_correct (text : String) :
    List.Sorted (· < ·) (extractCitedNumbers text) ∧
    (∀ n, n ∈ extractCitedNumbers text ↔ CitedIn n text.data) ∧
    extractCitedNumbers "Revenue grew [2] and margins improved [1][2]" = [1, 2] := by
  refine ⟨uniqueSorted_sorted_lt _, ?_, by decide⟩
  intro n
  exact mem_uniqueSorted.trans (findCitedFuel_iff text.data.length text.data le_rfl n)

end AgentInvest
